import Mathlib

/-!
Verification development for the graphics core of the STM32 weather-station
repository (`GFX_FUNCTIONS.c`).

Embedding conventions:
* A drawing primitive is modelled as a function returning the list of pixel
  writes it issues to the pixel sink, in emission order.  The sink
  (`ST7735_DrawPixel`) is external; per the spec it performs one pixel write,
  so it is modelled as emitting a single `Px` record.
* `int16_t` coordinate arithmetic is idealized as `ℤ`.  In the C source the
  operands of every arithmetic expression are promoted to `int` before the
  operation, so the expressions themselves do not wrap; only out-of-range
  narrowing back into `int16_t` could, and the spec's data model ("Point:
  integer pair, may be negative or exceed device bounds") treats coordinates
  as plain integers.
* C integer division truncates toward zero, hence `Int.tdiv` is used wherever
  a division appears in the source.
* Each C `while`/`for` loop becomes structural recursion on a fuel argument
  that bounds its iteration count; the wrapper passes a bound derived from
  the loop structure (for the midpoint-circle loops, `x` starts at 0, grows
  by 1 each pass and the guard needs `x < y ≤ r`, so `r.toNat + 1` passes
  suffice; for the Bresenham and scanline loops the trip count is exact).
* `uint16_t` colors are `Nat`s; `float` interpolation parameters are modelled
  as `ℚ` (the float computations exercised by the claims are exact).
-/

namespace GFX

/-- One pixel write issued to the display: position and 16-bit color. -/
structure Px where
  x : Int
  y : Int
  color : Int
  deriving DecidableEq, Repr

/-- Modelled from the spec: the Pixel Sink's `setPixel` operation
(`ST7735_DrawPixel` in the ST7735 library, which is not part of the
repository).  The rasterizer hands it one coordinate pair and a color and it
performs exactly one pixel write (clipping is the sink's private concern and
does not change which writes the rasterizer emits). -/
def ST7735_DrawPixel (x y color : Int) : List Px := [⟨x, y, color⟩]

/-- `drawPixel` forwards to the sink. -/
def drawPixel (x y color : Int) : List Px := ST7735_DrawPixel x y color

/-- `writePixel` forwards to `drawPixel`. -/
def writePixel (x y color : Int) : List Px := drawPixel x y color

/-- The Bresenham scan loop of `writeLine`:
`for (; x0 <= x1; x0++) { plot; err -= dy; if (err < 0) { y0 += ystep; err += dx; } }`.
The fuel is the exact trip count `max 0 (x1 - x0 + 1)`, computed by `wlMain`. -/
def wlLoop (steep : Bool) (color dx dy ystep : Int) :
    Nat → Int → Int → Int → List Px
  | 0, _, _, _ => []
  | n + 1, x0, y0, err =>
      (if steep then writePixel y0 x0 color else writePixel x0 y0 color) ++
      (let e := err - dy
       if e < 0 then wlLoop steep color dx dy ystep n (x0 + 1) (y0 + ystep) (e + dx)
       else wlLoop steep color dx dy ystep n (x0 + 1) y0 e)

/-- Body of `writeLine` after direction normalization: set up `dx`, `dy`,
`err = dx / 2` (truncating division) and `ystep`, then run the scan loop. -/
def wlMain (steep : Bool) (color x0 y0 x1 y1 : Int) : List Px :=
  let dx := x1 - x0
  let dy := |y1 - y0|
  let ystep : Int := if y0 < y1 then 1 else -1
  wlLoop steep color dx dy ystep (x1 + 1 - x0).toNat x0 y0 (dx.tdiv 2)

/-- Direction normalization of `writeLine`: `if (x0 > x1) { swap endpoints }`. -/
def wlAux (steep : Bool) (color x0 y0 x1 y1 : Int) : List Px :=
  if x0 > x1 then wlMain steep color x1 y1 x0 y0
  else wlMain steep color x0 y0 x1 y1

/-- `writeLine`: steepness test and transposition, then the normalized scan. -/
def writeLine (x0 y0 x1 y1 color : Int) : List Px :=
  if |y1 - y0| > |x1 - x0| then wlAux true color y0 x0 y1 x1
  else wlAux false color x0 y0 x1 y1

/-- `drawFastVLine(x, y, h)` = `writeLine(x, y, x, y + h - 1)`. -/
def drawFastVLine (x y h color : Int) : List Px :=
  writeLine x y x (y + h - 1) color

/-- `drawFastHLine(x, y, w)` = `writeLine(x, y, x + w - 1, y)`. -/
def drawFastHLine (x y w color : Int) : List Px :=
  writeLine x y (x + w - 1) y color

/-- `drawLine`: dispatch to the fast vertical/horizontal paths when the
endpoints share an axis (ordering the shared-axis endpoints first),
otherwise to the general `writeLine`. -/
def drawLine (x0 y0 x1 y1 color : Int) : List Px :=
  if x0 = x1 then
    if y0 > y1 then drawFastVLine x0 y1 (y0 - y1 + 1) color
    else drawFastVLine x0 y0 (y1 - y0 + 1) color
  else if y0 = y1 then
    if x0 > x1 then drawFastHLine x1 y0 (x0 - x1 + 1) color
    else drawFastHLine x0 y0 (x1 - x0 + 1) color
  else writeLine x0 y0 x1 y1 color

/-- `drawRect`: two fast horizontal edges and two fast vertical edges. -/
def drawRect (x y w h color : Int) : List Px :=
  drawFastHLine x y w color ++
  drawFastHLine x (y + h - 1) w color ++
  drawFastVLine x y h color ++
  drawFastVLine (x + w - 1) y h color

/-- The eight symmetric points plotted per step of the `drawCircle` loop,
in source order. -/
def plot8 (x0 y0 color x y : Int) : List Px :=
  writePixel (x0 + x) (y0 + y) color ++
  writePixel (x0 - x) (y0 + y) color ++
  writePixel (x0 + x) (y0 - y) color ++
  writePixel (x0 - x) (y0 - y) color ++
  writePixel (x0 + y) (y0 + x) color ++
  writePixel (x0 - y) (y0 + x) color ++
  writePixel (x0 + y) (y0 - x) color ++
  writePixel (x0 - y) (y0 - x) color

/-- The four axis-extreme points `drawCircle` plots before its loop,
in source order. -/
def plotAxes (x0 y0 r color : Int) : List Px :=
  writePixel x0 (y0 + r) color ++
  writePixel x0 (y0 - r) color ++
  writePixel (x0 + r) y0 color ++
  writePixel (x0 - r) y0 color

/-- The midpoint loop of `drawCircle`:
`while (x < y) { if (f >= 0) { y--; ddF_y += 2; f += ddF_y; } x++; ddF_x += 2;
f += ddF_x; plot the 8 symmetric points }`. -/
def drawCircleLoop (x0 y0 color : Int) :
    Nat → Int → Int → Int → Int → Int → List Px
  | 0, _, _, _, _, _ => []
  | n + 1, f, ddFx, ddFy, x, y =>
      if x < y then
        let (f, ddFy, y) :=
          if 0 ≤ f then (f + (ddFy + 2), ddFy + 2, y - 1) else (f, ddFy, y)
        let x := x + 1
        let ddFx := ddFx + 2
        let f := f + ddFx
        plot8 x0 y0 color x y ++
        drawCircleLoop x0 y0 color n f ddFx ddFy x y
      else []

/-- `drawCircle`: the four axis-extreme points, then the midpoint loop
starting from `f = 1 - r`, `ddF_x = 1`, `ddF_y = -2r`, `x = 0`, `y = r`. -/
def drawCircle (x0 y0 r color : Int) : List Px :=
  plotAxes x0 y0 r color ++
  drawCircleLoop x0 y0 color (r.toNat + 1) (1 - r) 1 (-2 * r) 0 r

/-- The midpoint loop of `drawCircleHelper`: same recurrence as
`drawCircleLoop` but plotting only the pairs selected by the 4-bit corner
mask, in source order `0x4, 0x2, 0x8, 0x1`. -/
def drawCircleHelperLoop (x0 y0 : Int) (cornername : Nat) (color : Int) :
    Nat → Int → Int → Int → Int → Int → List Px
  | 0, _, _, _, _, _ => []
  | n + 1, f, ddFx, ddFy, x, y =>
      if x < y then
        let (f, ddFy, y) :=
          if 0 ≤ f then (f + (ddFy + 2), ddFy + 2, y - 1) else (f, ddFy, y)
        let x := x + 1
        let ddFx := ddFx + 2
        let f := f + ddFx
        (if cornername &&& 0x4 ≠ 0 then
          writePixel (x0 + x) (y0 + y) color ++ writePixel (x0 + y) (y0 + x) color
         else []) ++
        (if cornername &&& 0x2 ≠ 0 then
          writePixel (x0 + x) (y0 - y) color ++ writePixel (x0 + y) (y0 - x) color
         else []) ++
        (if cornername &&& 0x8 ≠ 0 then
          writePixel (x0 - y) (y0 + x) color ++ writePixel (x0 - x) (y0 + y) color
         else []) ++
        (if cornername &&& 0x1 ≠ 0 then
          writePixel (x0 - y) (y0 - x) color ++ writePixel (x0 - x) (y0 - y) color
         else []) ++
        drawCircleHelperLoop x0 y0 cornername color n f ddFx ddFy x y
      else []

/-- `drawCircleHelper`: quadrant-masked midpoint circle. -/
def drawCircleHelper (x0 y0 r : Int) (cornername : Nat) (color : Int) : List Px :=
  drawCircleHelperLoop x0 y0 cornername color (r.toNat + 1) (1 - r) 1 (-2 * r) 0 r

/-- One vertical span emitted by `fillCircleHelper`, instrumented with the
loop state at the moment of emission: the span itself (`sx` = column,
`sy` = top coordinate, `sh` = the height argument passed to
`drawFastVLine`), the current `x`, `y`, the previous-state trackers `px`,
`py`, and whether the midpoint recurrence changed `y` in this iteration. -/
structure SpanEv where
  sx : Int
  sy : Int
  sh : Int
  x : Int
  y : Int
  px : Int
  py : Int
  ystepped : Bool
  deriving DecidableEq, Repr

/-- The loop of `fillCircleHelper`, recorded at vertical-span granularity
(each event is one `drawFastVLine` call).  `delta` here is the incremented
value (`delta++` happens before the loop).  Per iteration, after the
midpoint update: if `x < y + 1`, spans at `x0 ± x` of height `2y + delta`
for the corner bits 1 and 2; if `y ≠ py`, spans at `x0 ± py` of height
`2*px + delta`, after which `py` is reset to `y`; finally `px := x`. -/
def fchLoop (x0 y0 : Int) (corners : Nat) (delta color : Int) :
    Nat → Int → Int → Int → Int → Int → Int → Int → List SpanEv
  | 0, _, _, _, _, _, _, _ => []
  | n + 1, f, ddFx, ddFy, x, y, px, py =>
      if x < y then
        let stepped : Bool := decide (0 ≤ f)
        let (f, ddFy, y) :=
          if 0 ≤ f then (f + (ddFy + 2), ddFy + 2, y - 1) else (f, ddFy, y)
        let x := x + 1
        let ddFx := ddFx + 2
        let f := f + ddFx
        (if x < y + 1 then
          (if corners &&& 1 ≠ 0 then
            [⟨x0 + x, y0 - y, 2 * y + delta, x, y, px, py, stepped⟩] else []) ++
          (if corners &&& 2 ≠ 0 then
            [⟨x0 - x, y0 - y, 2 * y + delta, x, y, px, py, stepped⟩] else [])
         else []) ++
        (if y ≠ py then
          (if corners &&& 1 ≠ 0 then
            [⟨x0 + py, y0 - px, 2 * px + delta, x, y, px, py, stepped⟩] else []) ++
          (if corners &&& 2 ≠ 0 then
            [⟨x0 - py, y0 - px, 2 * px + delta, x, y, px, py, stepped⟩] else []) ++
          fchLoop x0 y0 corners delta color n f ddFx ddFy x y x y
         else fchLoop x0 y0 corners delta color n f ddFx ddFy x y x py)
      else []

/-- The sequence of vertical spans emitted by `fillCircleHelper(x0, y0, r,
corners, delta, color)`, instrumented with the emitting loop state.  The
incoming `delta` is the caller's `delta`; the body increments it once
(`delta++`) before the loop.  Initial state: `f = 1 - r`, `ddF_x = 1`,
`ddF_y = -2r`, `x = 0`, `y = r`, `px = x`, `py = y`. -/
def fillCircleHelperTrace (x0 y0 r : Int) (corners : Nat) (delta color : Int) :
    List SpanEv :=
  fchLoop x0 y0 corners (delta + 1) color (r.toNat + 1) (1 - r) 1 (-2 * r) 0 r 0 r

/-- `fillCircleHelper` as pixel writes: each traced span is one
`drawFastVLine` call. -/
def fillCircleHelper (x0 y0 r : Int) (corners : Nat) (delta color : Int) :
    List Px :=
  (fillCircleHelperTrace x0 y0 r corners delta color).flatMap
    (fun e => drawFastVLine e.sx e.sy e.sh color)

/-- Body of `drawRoundRect` after the radius clamp: the four shrunk straight
edges, then the four quarter-circle corners via `drawCircleHelper`. -/
def roundRectBody (x y w h r color : Int) : List Px :=
  drawFastHLine (x + r) y (w - 2 * r) color ++
  drawFastHLine (x + r) (y + h - 1) (w - 2 * r) color ++
  drawFastVLine x (y + r) (h - 2 * r) color ++
  drawFastVLine (x + w - 1) (y + r) (h - 2 * r) color ++
  drawCircleHelper (x + r) (y + r) r 1 color ++
  drawCircleHelper (x + w - r - 1) (y + r) r 2 color ++
  drawCircleHelper (x + w - r - 1) (y + h - r - 1) r 4 color ++
  drawCircleHelper (x + r) (y + h - r - 1) r 8 color

/-- `drawRoundRect`: clamp the corner radius to half the minor axis
(`max_radius = min(w,h)/2` with truncating division; `if (r > max_radius)
r = max_radius`), then draw edges and corners. -/
def drawRoundRect (x y w h r color : Int) : List Px :=
  let max_radius := (if w < h then w else h).tdiv 2
  roundRectBody x y w h (if r > max_radius then max_radius else r) color

/-- One scanline loop of `fillTriangle`.  Row `y` draws the horizontal span
between `a = xa + sa / dya` and `b = xb + sb / dyb` (truncating division,
endpoints sorted before drawing); then the numerators advance by the edge
deltas: `sa += dxa; sb += dxb`.  Both triangle loops have this shape; the
fuel is the exact trip count of the corresponding `for` loop. -/
def scanRows (xa dya dxa xb dyb dxb color : Int) :
    Nat → Int → Int → Int → List Px
  | 0, _, _, _ => []
  | n + 1, y, sa, sb =>
      let a := xa + sa.tdiv dya
      let b := xb + sb.tdiv dyb
      let (a, b) := if a > b then (b, a) else (a, b)
      drawFastHLine a y (b - a + 1) color ++
      scanRows xa dya dxa xb dyb dxb color n (y + 1) (sa + dxa) (sb + dxb)

/-- The all-vertices-on-one-scanline case of `fillTriangle`: accumulate the
min/max x across the three vertices and draw one horizontal span. -/
def triDeg (x0 x1 x2 y0 color : Int) : List Px :=
  let a := x0
  let b := x0
  let (a, b) :=
    if x1 < a then (x1, b) else if x1 > b then (a, x1) else (a, b)
  let (a, b) :=
    if x2 < a then (x2, b) else if x2 > b then (a, x2) else (a, b)
  drawFastHLine a y0 (b - a + 1) color

/-- Body of `fillTriangle` after the vertices have been ordered by `y`.
If all three `y`s coincide, one degenerate span.  Otherwise the upper
region scans rows `y0 .. last` (with `last = y1` exactly when `y1 = y2`,
else `y1 - 1`) interpolating edges 0-1 and 0-2 from zero-initialized
accumulators, and the lower region scans the remaining rows up to `y2`
interpolating edges 1-2 and 0-2, its accumulators seeded by division-free
multiplication at the seam row. -/
def fillTrianglePost (x0 y0 x1 y1 x2 y2 color : Int) : List Px :=
  if y0 = y2 then triDeg x0 x1 x2 y0 color
  else
    let dx01 := x1 - x0
    let dy01 := y1 - y0
    let dx02 := x2 - x0
    let dy02 := y2 - y0
    let dx12 := x2 - x1
    let dy12 := y2 - y1
    let last := if y1 = y2 then y1 else y1 - 1
    let n1 := (last + 1 - y0).toNat
    let y := y0 + (n1 : Int)
    let sa := dx12 * (y - y1)
    let sb := dx02 * (y - y0)
    let n2 := (y2 + 1 - y).toNat
    scanRows x0 dy01 dx01 x0 dy02 dx02 color n1 y0 0 0 ++
    scanRows x1 dy12 dx12 x0 dy02 dx02 color n2 y sa sb

/-- Third conditional exchange of the `fillTriangle` vertex sort:
`if (y0 > y1) swap(v0, v1)`. -/
def fillTriangleC (x0 y0 x1 y1 x2 y2 color : Int) : List Px :=
  if y0 > y1 then fillTrianglePost x1 y1 x0 y0 x2 y2 color
  else fillTrianglePost x0 y0 x1 y1 x2 y2 color

/-- Second conditional exchange: `if (y1 > y2) swap(v1, v2)`. -/
def fillTriangleB (x0 y0 x1 y1 x2 y2 color : Int) : List Px :=
  if y1 > y2 then fillTriangleC x0 y0 x2 y2 x1 y1 color
  else fillTriangleC x0 y0 x1 y1 x2 y2 color

/-- `fillTriangle`: the three conditional pairwise swaps that order the
vertices by `y`, then the scanline body. -/
def fillTriangle (x0 y0 x1 y1 x2 y2 color : Int) : List Px :=
  if y0 > y1 then fillTriangleB x1 y1 x0 y0 x2 y2 color
  else fillTriangleB x0 y0 x1 y1 x2 y2 color

/-- Conversion of an exact rational to a C integer: truncation toward zero
(the effect of `(int)` applied to a float value the claims exercise). -/
def truncF (q : ℚ) : Int := q.num.tdiv (q.den : Int)

/-- `interpolateColor`: unpack both RGB565 colors into 5/6/5-bit channels,
interpolate each channel as `start + (int)((end - start) * t)`, repack with
shifts and bitwise or, and narrow to `uint16_t`.  A negative channel value
makes the C left shift undefined; the model commits to the two's-complement
reading (reduce into 32-bit range, shift, take the low 16 bits). -/
def interpolateColor (colorStart colorEnd : Nat) (t : ℚ) : Nat :=
  let redStart : Int := ((colorStart >>> 11) &&& 0x1F : Nat)
  let greenStart : Int := ((colorStart >>> 5) &&& 0x3F : Nat)
  let blueStart : Int := (colorStart &&& 0x1F : Nat)
  let redEnd : Int := ((colorEnd >>> 11) &&& 0x1F : Nat)
  let greenEnd : Int := ((colorEnd >>> 5) &&& 0x3F : Nat)
  let blueEnd : Int := (colorEnd &&& 0x1F : Nat)
  let red := redStart + truncF ((redEnd - redStart : Int) * t)
  let green := greenStart + truncF ((greenEnd - greenStart : Int) * t)
  let blue := blueStart + truncF ((blueEnd - blueStart : Int) * t)
  (((red % 4294967296).toNat <<< 11) |||
   ((green % 4294967296).toNat <<< 5) |||
   (blue % 4294967296).toNat) % 65536

end GFX

-- sanity checks of the embedding on concrete inputs
example : GFX.writeLine 0 0 3 0 7 =
    [⟨0, 0, 7⟩, ⟨1, 0, 7⟩, ⟨2, 0, 7⟩, ⟨3, 0, 7⟩] := by decide

example : GFX.drawFastHLine 5 2 0 9 = [⟨4, 2, 9⟩, ⟨5, 2, 9⟩] := by decide

example : GFX.writeLine 0 0 3 7 1 = GFX.writeLine 3 7 0 0 1 := by decide

-- more sanity checks on concrete inputs
example : (GFX.drawCircle 0 0 2 7).length = 20 := by decide
example : GFX.fillTriangle 0 0 5 0 10 0 7 =
    [⟨0, 0, 7⟩, ⟨1, 0, 7⟩, ⟨2, 0, 7⟩, ⟨3, 0, 7⟩, ⟨4, 0, 7⟩, ⟨5, 0, 7⟩,
     ⟨6, 0, 7⟩, ⟨7, 0, 7⟩, ⟨8, 0, 7⟩, ⟨9, 0, 7⟩, ⟨10, 0, 7⟩] := by decide
example :
    (GFX.fillCircleHelperTrace 0 0 5 1 0 7).head? =
    some ⟨1, -5, 11, 1, 5, 0, 5, false⟩ := by decide

namespace GFX

/-- The Bresenham scan loop emits exactly one pixel per fuel unit. -/
lemma wlLoop_length (steep : Bool) (color dx dy ystep : Int) :
    ∀ (n : Nat) (x0 y0 err : Int),
      (wlLoop steep color dx dy ystep n x0 y0 err).length = n := by
  intro n
  induction n with
  | zero => intro x0 y0 err; rfl
  | succ n ih =>
      intro x0 y0 err
      simp only [wlLoop, List.length_append]
      have h1 : (if steep then writePixel y0 x0 color
          else writePixel x0 y0 color).length = 1 := by
        split <;> rfl
      rw [h1]
      split <;> rw [ih] <;> omega

/-- After direction normalization the trip count is `|x1 - x0| + 1`. -/
lemma wlAux_length (s : Bool) (c x0 y0 x1 y1 : Int) :
    ((wlAux s c x0 y0 x1 y1).length : Int) = |x1 - x0| + 1 := by
  unfold wlAux wlMain
  by_cases h : x0 > x1
  · rw [if_pos h]
    simp only [wlLoop_length]
    rw [abs_of_neg (by omega : x1 - x0 < 0)]
    omega
  · rw [if_neg h]
    simp only [wlLoop_length]
    rw [abs_of_nonneg (by omega : (0:ℤ) ≤ x1 - x0)]
    omega

/-- `writeLine` emits exactly `max |dx| |dy| + 1` pixels. -/
lemma writeLine_length (x0 y0 x1 y1 c : Int) :
    ((writeLine x0 y0 x1 y1 c).length : Int) = max |x1 - x0| |y1 - y0| + 1 := by
  unfold writeLine
  by_cases h : |y1 - y0| > |x1 - x0|
  · rw [if_pos h, wlAux_length, max_eq_right (le_of_lt h)]
  · rw [if_neg h, wlAux_length, max_eq_left (not_lt.mp h)]

/-- With `dy = 0` and a nonnegative error accumulator, the scan never steps
the minor axis: every pixel keeps the starting `y`. -/
lemma wlLoop_y_const (c dx ystep : Int) :
    ∀ (n : Nat) (x0 y0 err : Int), 0 ≤ err →
      ∀ p ∈ wlLoop false c dx 0 ystep n x0 y0 err, p.y = y0 := by
  intro n
  induction n with
  | zero => intro x0 y0 err _ p hp; simp [wlLoop] at hp
  | succ n ih =>
      intro x0 y0 err herr p hp
      simp only [wlLoop, Bool.false_eq_true, if_false, sub_zero,
        writePixel, drawPixel, ST7735_DrawPixel] at hp
      rw [if_neg (by omega : ¬ err < 0)] at hp
      rcases List.mem_append.mp hp with hp1 | hp2
      · rcases List.mem_singleton.mp hp1 with rfl; rfl
      · exact ih (x0 + 1) y0 err herr p hp2

end GFX

namespace GFX

/-- C2: for every pair of endpoints, `writeLine` emits exactly
`max (|x1 - x0|) (|y1 - y0|) + 1` pixel writes; and for every `dx ≥ 0`,
`writeLine` from `(0,0)` to `(dx, 0)` emits exactly `dx + 1` pixels, all of
them with `y = 0`. -/
theorem writeLine_pixel_count (x0 y0 x1 y1 color dx : Int) (hdx : 0 ≤ dx) :
    ((writeLine x0 y0 x1 y1 color).length : Int) = max |x1 - x0| |y1 - y0| + 1 ∧
    ((writeLine 0 0 dx 0 color).length : Int) = dx + 1 ∧
    ∀ p ∈ writeLine 0 0 dx 0 color, p.y = 0 := by
  refine ⟨writeLine_length x0 y0 x1 y1 color, ?_, ?_⟩
  · rw [writeLine_length]
    rw [sub_zero, sub_zero, abs_zero, abs_of_nonneg hdx, max_eq_left hdx]
  · intro p hp
    have h1 : ¬ (|(0:ℤ) - 0| > |dx - 0|) := by
      rw [sub_zero, sub_zero, abs_zero]
      exact (abs_nonneg dx).not_lt
    rw [writeLine, if_neg h1, wlAux, if_neg (by omega : ¬ (0:ℤ) > dx)] at hp
    rw [wlMain] at hp
    simp only [sub_zero, abs_zero] at hp
    exact wlLoop_y_const color dx _ _ 0 0 _
      (Int.tdiv_nonneg hdx (by omega)) p hp

/-- Witness for C2 at endpoints `(1,2)-(4,-1)` and `dx = 3`. -/
theorem writeLine_pixel_count_witness :
    (0:ℤ) ≤ 3 ∧
    (((writeLine 1 2 4 (-1) 7).length : Int) = max |4 - 1| |(-1 : Int) - 2| + 1 ∧
     ((writeLine 0 0 3 0 7).length : Int) = 3 + 1 ∧
     ∀ p ∈ writeLine 0 0 3 0 7, p.y = 0) :=
  ⟨by decide, writeLine_pixel_count 1 2 4 (-1) 7 3 (by decide)⟩

end GFX

namespace GFX

/-- A fast horizontal line of requested width `w` emits `|w - 1| + 1` pixels:
`writeLine` always draws the inclusive segment between its endpoints. -/
lemma drawFastHLine_length (x y w c : Int) :
    ((drawFastHLine x y w c).length : Int) = |w - 1| + 1 := by
  unfold drawFastHLine
  rw [writeLine_length]
  have h1 : x + w - 1 - x = w - 1 := by ring
  rw [h1, sub_self, abs_zero, max_eq_left (abs_nonneg _)]

/-- A fast vertical line of requested height `h` emits `|h - 1| + 1` pixels. -/
lemma drawFastVLine_length (x y h c : Int) :
    ((drawFastVLine x y h c).length : Int) = |h - 1| + 1 := by
  unfold drawFastVLine
  rw [writeLine_length]
  have h1 : y + h - 1 - y = h - 1 := by ring
  rw [h1, sub_self, abs_zero, max_eq_right (abs_nonneg _)]

/-- C1 (amended): `drawRect` always emits exactly
`2(|w-1|+1) + 2(|h-1|+1)` pixel writes.  In particular a zero or negative
width or height does **not** make it draw nothing: the fast line primitives
it is built from draw the inclusive Bresenham segment between their computed
endpoints (`|w-1|+1` pixels for a width-`w` horizontal line), so the
degenerate rectangle still produces writes. -/
theorem drawRect_write_count (x y w h color : Int) :
    ((drawRect x y w h color).length : Int)
      = 2 * (|w - 1| + 1) + 2 * (|h - 1| + 1) := by
  unfold drawRect
  simp only [List.length_append]
  push_cast
  rw [drawFastHLine_length, drawFastHLine_length,
    drawFastVLine_length, drawFastVLine_length]
  ring

/-- C1 counterexample: `drawRect` at origin `(0,0)` with `w = 0 ≤ 0` and
`h = 0 ≤ 0` emits pixel writes (eight of them), contradicting the claim
that it emits none. -/
theorem drawRect_degenerate_draws : drawRect 0 0 0 0 0 ≠ [] := by decide

/-- Swapping the endpoint arguments of the direction-normalization step is
invisible as long as equal `x`s force equal endpoints. -/
lemma wlAux_comm (s : Bool) (c x0 y0 x1 y1 : Int) (h : x0 = x1 → y0 = y1) :
    wlAux s c x0 y0 x1 y1 = wlAux s c x1 y1 x0 y0 := by
  rcases lt_trichotomy x0 x1 with hlt | heq | hgt
  · rw [wlAux, if_neg (by omega), wlAux, if_pos (by omega)]
  · have hy := h heq
    rw [heq, hy]
  · rw [wlAux, if_pos (by omega), wlAux, if_neg (by omega)]

/-- `writeLine` is endpoint-reversal invariant as a pixel-write sequence:
the steepness test is symmetric and the normalization step orders the
endpoints the same way for both calls. -/
lemma writeLine_comm (x0 y0 x1 y1 c : Int) :
    writeLine x0 y0 x1 y1 c = writeLine x1 y1 x0 y0 c := by
  unfold writeLine
  have hy : |y0 - y1| = |y1 - y0| := abs_sub_comm y0 y1
  have hx : |x0 - x1| = |x1 - x0| := abs_sub_comm x0 x1
  by_cases hst : |y1 - y0| > |x1 - x0|
  · rw [if_pos hst, if_pos (by rw [hy, hx]; exact hst)]
    refine wlAux_comm true c y0 x0 y1 x1 (fun hyy => ?_)
    exfalso
    rw [hyy, sub_self, abs_zero] at hst
    exact (abs_nonneg (x1 - x0)).not_lt hst
  · rw [if_neg hst, if_neg (by rw [hy, hx]; exact hst)]
    refine wlAux_comm false c x0 y0 x1 y1 (fun hxx => ?_)
    rw [hxx, sub_self, abs_zero, not_lt] at hst
    have := abs_nonpos_iff.mp hst
    omega

/-- `drawLine` is endpoint-reversal invariant as a pixel-write sequence. -/
lemma drawLine_comm (x0 y0 x1 y1 c : Int) :
    drawLine x0 y0 x1 y1 c = drawLine x1 y1 x0 y0 c := by
  unfold drawLine
  by_cases hx : x0 = x1
  · rw [if_pos hx, if_pos hx.symm]
    rcases lt_trichotomy y0 y1 with hy | hy | hy
    · rw [if_neg (by omega), if_pos hy, hx]
    · rw [if_neg (by omega), if_neg (by omega), hx, hy]
    · rw [if_pos hy, if_neg (by omega), hx]
  · by_cases hy : y0 = y1
    · rw [if_neg hx, if_pos hy, if_neg (fun hh : x1 = x0 => hx hh.symm),
        if_pos hy.symm]
      rcases lt_trichotomy x0 x1 with hxx | hxx | hxx
      · rw [if_neg (by omega : ¬ x0 > x1), if_pos (by omega : x1 > x0), hy]
      · exact absurd hxx hx
      · rw [if_pos hxx, if_neg (by omega : ¬ x1 > x0), hy]
    · rw [if_neg hx, if_neg hy, if_neg (fun hh : x1 = x0 => hx hh.symm),
        if_neg (fun hh : y1 = y0 => hy hh.symm)]
      exact writeLine_comm x0 y0 x1 y1 c

/-- C3: for every pair of points and every color, `drawLine(p0, p1, c)` and
`drawLine(p1, p0, c)` produce identical pixel sets (in fact identical
pixel-write sequences). -/
theorem drawLine_reversal_pixel_set (x0 y0 x1 y1 color : Int) (p : Px) :
    p ∈ drawLine x0 y0 x1 y1 color ↔ p ∈ drawLine x1 y1 x0 y0 color := by
  rw [drawLine_comm]

end GFX

namespace GFX

/-- C7: for every origin, width, height and color, calling `drawRoundRect`
with a corner radius strictly greater than `min(w,h)/2` (C truncating
division) produces exactly the same pixel-write sequence as calling it with
radius `min(w,h)/2`: the clamp replaces the oversized radius by the cap, and
re-passing the cap leaves it unchanged. -/
theorem drawRoundRect_radius_clamp (x y w h r color : Int)
    (hr : (if w < h then w else h).tdiv 2 < r) :
    drawRoundRect x y w h r color =
      drawRoundRect x y w h ((if w < h then w else h).tdiv 2) color := by
  show roundRectBody x y w h
      (if ((if w < h then w else h).tdiv 2) < r
       then (if w < h then w else h).tdiv 2 else r) color =
    roundRectBody x y w h
      (if ((if w < h then w else h).tdiv 2) < (if w < h then w else h).tdiv 2
       then (if w < h then w else h).tdiv 2 else (if w < h then w else h).tdiv 2)
      color
  rw [if_pos hr, if_neg (lt_irrefl _)]

/-- Witness for C7: a 10-by-10 rectangle with requested radius 9 is drawn
exactly like one with the clamped radius 5. -/
theorem drawRoundRect_radius_clamp_witness :
    ((if (10:ℤ) < 10 then (10:ℤ) else 10).tdiv 2 < 9) ∧
    drawRoundRect 0 0 10 10 9 3 =
      drawRoundRect 0 0 10 10 ((if (10:ℤ) < 10 then (10:ℤ) else 10).tdiv 2) 3 :=
  ⟨by decide, drawRoundRect_radius_clamp 0 0 10 10 9 3 (by decide)⟩

end GFX

namespace GFX

/-- Packing three in-range RGB565 channels with shifts and bitwise or is
plain positional arithmetic. -/
lemma pack565_add (R G B : Nat) (hG : G < 64) (hB : B < 32) :
    (R <<< 11) ||| (G <<< 5) ||| B = R * 2048 + G * 32 + B := by
  rw [Nat.lor_assoc]
  have h1 : G <<< 5 ||| B = 2 ^ 5 * G + B := by
    rw [Nat.shiftLeft_eq, Nat.mul_comm G (2 ^ 5)]
    exact (Nat.mul_add_lt_is_or (by omega) G).symm
  rw [h1]
  have h2 : R <<< 11 ||| (2 ^ 5 * G + B) = 2 ^ 11 * R + (2 ^ 5 * G + B) := by
    rw [Nat.shiftLeft_eq, Nat.mul_comm R (2 ^ 11)]
    exact (Nat.mul_add_lt_is_or (by omega) R).symm
  rw [h2]; ring

/-- Unpacking a 16-bit color into 5/6/5 channels and repacking restores it. -/
lemma unpack_pack (c : Nat) (hc : c < 65536) :
    ((((c >>> 11) &&& 31) <<< 11) ||| (((c >>> 5) &&& 63) <<< 5) |||
      (c &&& 31)) % 65536 = c := by
  rw [show (31:Nat) = 2 ^ 5 - 1 from rfl, show (63:Nat) = 2 ^ 6 - 1 from rfl,
    Nat.and_pow_two_sub_one_eq_mod, Nat.and_pow_two_sub_one_eq_mod,
    Nat.and_pow_two_sub_one_eq_mod, Nat.shiftRight_eq_div_pow,
    Nat.shiftRight_eq_div_pow, pack565_add _ _ _ (by omega) (by omega)]
  omega

/-- Reducing a small nonnegative channel into 32-bit range is the identity. -/
lemma emod32_toNat (m : Nat) (hm : m < 4294967296) :
    (((m : Nat) : Int) % 4294967296).toNat = m := by
  rw [Int.emod_eq_of_lt (by omega) (by omega)]
  exact Int.toNat_natCast m

/-- Truncating the rational zero gives the integer zero. -/
lemma truncF_zero : truncF 0 = 0 := by
  unfold truncF
  norm_num [Int.zero_tdiv]

/-- Truncating an integer-valued rational returns that integer. -/
lemma truncF_intCast (n : Int) : truncF ((n : ℚ)) = n := by
  unfold truncF
  rw [Rat.num_intCast, Rat.den_intCast, Nat.cast_one, Int.tdiv_one]

end GFX

namespace GFX

/-- C8: interpolating between a 16-bit color and itself returns that color
for every interpolation parameter, including parameters outside `[0, 1]`:
all three channel differences vanish, so each channel term adds a truncated
zero, and repacking the unpacked channels restores the color. -/
theorem interpolateColor_endpoints_equal (c : Nat) (hc : c < 65536) (t : ℚ) :
    interpolateColor c c t = c := by
  simp only [interpolateColor, sub_self, Int.cast_zero, zero_mul, truncF_zero,
    add_zero]
  rw [emod32_toNat ((c >>> 11) &&& 31)
      (lt_of_le_of_lt Nat.and_le_right (by norm_num)),
    emod32_toNat ((c >>> 5) &&& 63)
      (lt_of_le_of_lt Nat.and_le_right (by norm_num)),
    emod32_toNat (c &&& 31)
      (lt_of_le_of_lt Nat.and_le_right (by norm_num))]
  exact unpack_pack c hc

/-- Witness for C8 at `c = 43981` and `t = 5/2`. -/
theorem interpolateColor_endpoints_equal_witness :
    43981 < 65536 ∧ interpolateColor 43981 43981 (5/2) = 43981 :=
  ⟨by decide, interpolateColor_endpoints_equal 43981 (by decide) (5/2)⟩

end GFX

namespace GFX

/-- C9: `interpolateColor(start, end, 0)` returns exactly `start` and
`interpolateColor(start, end, 1)` returns exactly `end`; the per-channel
interpolation truncates toward zero rather than rounding, witnessed by
`interpolateColor 2048 0 (1/2) = 2048`: the red channel computes
`1 + trunc(-1/2) = 1 + 0`, whereas flooring (or rounding half away from
zero) would give `1 + (-1) = 0`. -/
theorem interpolateColor_boundary_exact (s e : Nat)
    (hs : s < 65536) (he : e < 65536) :
    interpolateColor s e 0 = s ∧ interpolateColor s e 1 = e ∧
    interpolateColor 2048 0 (1/2) = 2048 := by
  refine ⟨?_, ?_, ?_⟩
  · simp only [interpolateColor, mul_zero, truncF_zero, add_zero]
    rw [emod32_toNat ((s >>> 11) &&& 31)
        (lt_of_le_of_lt Nat.and_le_right (by norm_num)),
      emod32_toNat ((s >>> 5) &&& 63)
        (lt_of_le_of_lt Nat.and_le_right (by norm_num)),
      emod32_toNat (s &&& 31)
        (lt_of_le_of_lt Nat.and_le_right (by norm_num))]
    exact unpack_pack s hs
  · simp only [interpolateColor, mul_one, truncF_intCast]
    have harr : ∀ a b : Int, a + (b - a) = b := by intro a b; ring
    rw [harr, harr, harr]
    rw [emod32_toNat ((e >>> 11) &&& 31)
        (lt_of_le_of_lt Nat.and_le_right (by norm_num)),
      emod32_toNat ((e >>> 5) &&& 63)
        (lt_of_le_of_lt Nat.and_le_right (by norm_num)),
      emod32_toNat (e &&& 31)
        (lt_of_le_of_lt Nat.and_le_right (by norm_num))]
    exact unpack_pack e he
  · have c1 : ((2048:Nat) >>> 11) &&& 31 = 1 := by decide
    have c2 : ((2048:Nat) >>> 5) &&& 63 = 0 := by decide
    have c3 : (2048:Nat) &&& 31 = 0 := by decide
    have c4 : ((0:Nat) >>> 11) &&& 31 = 0 := by decide
    have c5 : ((0:Nat) >>> 5) &&& 63 = 0 := by decide
    have c6 : (0:Nat) &&& 31 = 0 := by decide
    simp only [interpolateColor, c1, c2, c3, c4, c5, c6, Nat.cast_one,
      Nat.cast_zero, sub_zero, zero_sub, sub_self, Int.cast_zero, zero_mul,
      truncF_zero, add_zero]
    have ht : truncF ((((-1 : Int)) : ℚ) * (1/2)) = 0 := by
      have hq : ((((-1 : Int)) : ℚ) * (1/2)) = -1/2 := by push_cast; ring
      rw [hq]
      unfold truncF
      rw [(by norm_num : ((-1/2 : ℚ)).num = -1),
        (by norm_num : ((-1/2 : ℚ)).den = 2)]
      decide
    rw [ht]
    decide

end GFX

namespace GFX

/-- Witness for C9 at `start = 63488` (pure red), `end = 2016` (pure green). -/
theorem interpolateColor_boundary_exact_witness :
    63488 < 65536 ∧ 2016 < 65536 ∧
    (interpolateColor 63488 2016 0 = 63488 ∧
     interpolateColor 63488 2016 1 = 2016 ∧
     interpolateColor 2048 0 (1/2) = 2048) :=
  ⟨by decide, by decide,
   interpolateColor_boundary_exact 63488 2016 (by decide) (by decide)⟩

end GFX

namespace GFX

/-- The midpoint loop's pixel set is stable under any point map that
permutes each eight-point block. -/
lemma drawCircleLoop_mem_of (x0 y0 c : Int) (px py : Int → Int → Int)
    (hblock : ∀ x y a b col,
      Px.mk a b col ∈ plot8 x0 y0 c x y ↔
        Px.mk (px a b) (py a b) col ∈ plot8 x0 y0 c x y) :
    ∀ (n : Nat) (f dfx dfy x y a b col : Int),
      (Px.mk a b col ∈ drawCircleLoop x0 y0 c n f dfx dfy x y ↔
        Px.mk (px a b) (py a b) col ∈ drawCircleLoop x0 y0 c n f dfx dfy x y) := by
  intro n
  induction n with
  | zero => intro f dfx dfy x y a b col; simp [drawCircleLoop]
  | succ n ih =>
      intro f dfx dfy x y a b col
      by_cases hxy : x < y
      · by_cases hf : 0 ≤ f
        · simp only [drawCircleLoop, if_pos hxy, if_pos hf]
          rw [List.mem_append, List.mem_append]
          exact or_congr (hblock _ _ a b col) (ih _ _ _ _ _ a b col)
        · simp only [drawCircleLoop, if_pos hxy, if_neg hf]
          rw [List.mem_append, List.mem_append]
          exact or_congr (hblock _ _ a b col) (ih _ _ _ _ _ a b col)
      · simp [drawCircleLoop, hxy]

/-- Whole-circle membership stability from block stability. -/
lemma drawCircle_mem_of (x0 y0 r c : Int) (px py : Int → Int → Int)
    (haxes : ∀ a b col,
      Px.mk a b col ∈ plotAxes x0 y0 r c ↔
        Px.mk (px a b) (py a b) col ∈ plotAxes x0 y0 r c)
    (hblock : ∀ x y a b col,
      Px.mk a b col ∈ plot8 x0 y0 c x y ↔
        Px.mk (px a b) (py a b) col ∈ plot8 x0 y0 c x y)
    (a b col : Int) :
    Px.mk a b col ∈ drawCircle x0 y0 r c ↔
      Px.mk (px a b) (py a b) col ∈ drawCircle x0 y0 r c := by
  unfold drawCircle
  rw [List.mem_append, List.mem_append]
  exact or_congr (haxes a b col)
    (drawCircleLoop_mem_of x0 y0 c px py hblock _ _ _ _ _ _ a b col)

end GFX


namespace GFX

/-- Arithmetic characterization of membership in an eight-point block. -/
lemma mem_plot8_iff (x0 y0 c x y a b col : Int) :
    Px.mk a b col ∈ plot8 x0 y0 c x y ↔
      (col = c ∧
        (((a = x0 + x ∨ a = x0 - x) ∧ (b = y0 + y ∨ b = y0 - y)) ∨
         ((a = x0 + y ∨ a = x0 - y) ∧ (b = y0 + x ∨ b = y0 - x)))) := by
  simp only [plot8, writePixel, drawPixel, ST7735_DrawPixel, List.mem_append,
    List.mem_singleton, Px.mk.injEq]
  constructor
  · rintro (((((((⟨rfl, rfl, rfl⟩ | ⟨rfl, rfl, rfl⟩) | ⟨rfl, rfl, rfl⟩) |
      ⟨rfl, rfl, rfl⟩) | ⟨rfl, rfl, rfl⟩) | ⟨rfl, rfl, rfl⟩) |
      ⟨rfl, rfl, rfl⟩) | ⟨rfl, rfl, rfl⟩) <;> simp
  · rintro ⟨rfl, (⟨(rfl | rfl), (rfl | rfl)⟩ | ⟨(rfl | rfl), (rfl | rfl)⟩)⟩ <;>
      simp

/-- Arithmetic characterization of membership in the four axis points. -/
lemma mem_plotAxes_iff (x0 y0 r c a b col : Int) :
    Px.mk a b col ∈ plotAxes x0 y0 r c ↔
      (col = c ∧ ((a = x0 ∧ (b = y0 + r ∨ b = y0 - r)) ∨
                  ((a = x0 + r ∨ a = x0 - r) ∧ b = y0))) := by
  simp only [plotAxes, writePixel, drawPixel, ST7735_DrawPixel, List.mem_append,
    List.mem_singleton, Px.mk.injEq]
  constructor
  · rintro (((⟨rfl, rfl, rfl⟩ | ⟨rfl, rfl, rfl⟩) | ⟨rfl, rfl, rfl⟩) |
      ⟨rfl, rfl, rfl⟩) <;> simp
  · rintro ⟨rfl, (⟨rfl, (rfl | rfl)⟩ | ⟨(rfl | rfl), rfl⟩)⟩ <;> simp

set_option maxHeartbeats 1000000 in
/-- The eight-point block is stable under horizontal-axis reflection. -/
lemma plot8_reflH (x0 y0 c x y a b col : Int) :
    Px.mk a b col ∈ plot8 x0 y0 c x y ↔
      Px.mk a (2 * y0 - b) col ∈ plot8 x0 y0 c x y := by
  rw [mem_plot8_iff, mem_plot8_iff]
  constructor <;> rintro ⟨rfl, h⟩ <;> exact ⟨rfl, by omega⟩

set_option maxHeartbeats 1000000 in
/-- The eight-point block is stable under vertical-axis reflection. -/
lemma plot8_reflV (x0 y0 c x y a b col : Int) :
    Px.mk a b col ∈ plot8 x0 y0 c x y ↔
      Px.mk (2 * x0 - a) b col ∈ plot8 x0 y0 c x y := by
  rw [mem_plot8_iff, mem_plot8_iff]
  constructor <;> rintro ⟨rfl, h⟩ <;> exact ⟨rfl, by omega⟩

set_option maxHeartbeats 1000000 in
/-- The eight-point block is stable under the center-relative diagonal swap. -/
lemma plot8_diag (x0 y0 c x y a b col : Int) :
    Px.mk a b col ∈ plot8 x0 y0 c x y ↔
      Px.mk (x0 + (b - y0)) (y0 + (a - x0)) col ∈ plot8 x0 y0 c x y := by
  rw [mem_plot8_iff, mem_plot8_iff]
  constructor <;> rintro ⟨rfl, h⟩ <;> exact ⟨rfl, by omega⟩

set_option maxHeartbeats 1000000 in
/-- The four axis points are stable under horizontal-axis reflection. -/
lemma plotAxes_reflH (x0 y0 r c a b col : Int) :
    Px.mk a b col ∈ plotAxes x0 y0 r c ↔
      Px.mk a (2 * y0 - b) col ∈ plotAxes x0 y0 r c := by
  rw [mem_plotAxes_iff, mem_plotAxes_iff]
  constructor <;> rintro ⟨rfl, h⟩ <;> exact ⟨rfl, by omega⟩

set_option maxHeartbeats 1000000 in
/-- The four axis points are stable under vertical-axis reflection. -/
lemma plotAxes_reflV (x0 y0 r c a b col : Int) :
    Px.mk a b col ∈ plotAxes x0 y0 r c ↔
      Px.mk (2 * x0 - a) b col ∈ plotAxes x0 y0 r c := by
  rw [mem_plotAxes_iff, mem_plotAxes_iff]
  constructor <;> rintro ⟨rfl, h⟩ <;> exact ⟨rfl, by omega⟩

set_option maxHeartbeats 1000000 in
/-- The four axis points are stable under the diagonal swap. -/
lemma plotAxes_diag (x0 y0 r c a b col : Int) :
    Px.mk a b col ∈ plotAxes x0 y0 r c ↔
      Px.mk (x0 + (b - y0)) (y0 + (a - x0)) col ∈ plotAxes x0 y0 r c := by
  rw [mem_plotAxes_iff, mem_plotAxes_iff]
  constructor <;> rintro ⟨rfl, h⟩ <;> exact ⟨rfl, by omega⟩

end GFX

namespace GFX

/-- C4: for every center `(x0, y0)`, radius `r ≥ 0` and color, the point set
plotted by `drawCircle` is invariant under reflection across the horizontal
axis through the center, under reflection across the vertical axis through
the center, and under the diagonal swap taking center-relative `(x, y)` to
`(y, x)`. -/
theorem drawCircle_symmetries (x0 y0 r color : Int) (hr : 0 ≤ r)
    (a b col : Int) :
    (Px.mk a b col ∈ drawCircle x0 y0 r color ↔
      Px.mk a (2 * y0 - b) col ∈ drawCircle x0 y0 r color) ∧
    (Px.mk a b col ∈ drawCircle x0 y0 r color ↔
      Px.mk (2 * x0 - a) b col ∈ drawCircle x0 y0 r color) ∧
    (Px.mk a b col ∈ drawCircle x0 y0 r color ↔
      Px.mk (x0 + (b - y0)) (y0 + (a - x0)) col ∈ drawCircle x0 y0 r color) :=
  ⟨drawCircle_mem_of x0 y0 r color (fun u v => u) (fun u v => 2 * y0 - v)
    (fun a b col => plotAxes_reflH x0 y0 r color a b col)
    (fun x y a b col => plot8_reflH x0 y0 color x y a b col) a b col,
   drawCircle_mem_of x0 y0 r color (fun u v => 2 * x0 - u) (fun u v => v)
    (fun a b col => plotAxes_reflV x0 y0 r color a b col)
    (fun x y a b col => plot8_reflV x0 y0 color x y a b col) a b col,
   drawCircle_mem_of x0 y0 r color
    (fun u v => x0 + (v - y0)) (fun u v => y0 + (u - x0))
    (fun a b col => plotAxes_diag x0 y0 r color a b col)
    (fun x y a b col => plot8_diag x0 y0 color x y a b col) a b col⟩

/-- Witness for C4 at center `(0,0)`, radius `2`, color `7`, point `(1,2)`. -/
theorem drawCircle_symmetries_witness :
    (0:ℤ) ≤ 2 ∧
    ((Px.mk 1 2 7 ∈ drawCircle 0 0 2 7 ↔
       Px.mk 1 (2 * 0 - 2) 7 ∈ drawCircle 0 0 2 7) ∧
     (Px.mk 1 2 7 ∈ drawCircle 0 0 2 7 ↔
       Px.mk (2 * 0 - 1) 2 7 ∈ drawCircle 0 0 2 7) ∧
     (Px.mk 1 2 7 ∈ drawCircle 0 0 2 7 ↔
       Px.mk (0 + (2 - 0)) (0 + (1 - 0)) 7 ∈ drawCircle 0 0 2 7)) :=
  ⟨by decide, drawCircle_symmetries 0 0 2 7 (by decide) 1 2 7⟩

end GFX

namespace GFX

/-- Membership in the pair of mask-guarded singleton emissions. -/
lemma mem_mask_pair {P Q : Prop} [Decidable P] [Decidable Q]
    {e1 e2 ev : SpanEv}
    (h : ev ∈ (if P then [e1] else []) ++ (if Q then [e2] else [])) :
    ev = e1 ∨ ev = e2 := by
  rcases List.mem_append.mp h with h | h
  · left
    split at h
    · exact List.mem_singleton.mp h
    · simp at h
  · right
    split at h
    · exact List.mem_singleton.mp h
    · simp at h

/-- Span-shape invariant of the `fillCircleHelper` loop, for any state whose
`py` tracker equals the current `y` (which the loop maintains): every
emitted span either comes from the `x < y + 1` family — height
`2*y + delta` at offset `±x` for the current `x`, `y` — or from the
deduplicated family — emitted only on an iteration that stepped `y`, with
height `2*px + delta` at offset `±py` for the previous trackers. -/
lemma fchLoop_spans (x0 y0 : Int) (corners : Nat) (delta c : Int) :
    ∀ (n : Nat) (f dfx dfy x y pxv pyv : Int), pyv = y →
      ∀ ev ∈ fchLoop x0 y0 corners delta c n f dfx dfy x y pxv pyv,
        (ev.sh = 2 * ev.y + delta ∧
          (ev.sx = x0 + ev.x ∨ ev.sx = x0 - ev.x)) ∨
        (ev.ystepped = true ∧ ev.sh = 2 * ev.px + delta ∧
          (ev.sx = x0 + ev.py ∨ ev.sx = x0 - ev.py)) := by
  intro n
  induction n with
  | zero => intro f dfx dfy x y pxv pyv hpy ev hev; simp [fchLoop] at hev
  | succ n ih =>
      intro f dfx dfy x y pxv pyv hpy ev hev
      by_cases hxy : x < y
      · by_cases hf : 0 ≤ f
        · have hst : (decide (0 ≤ f)) = true := by simp [hf]
          simp only [fchLoop, if_pos hxy, if_pos hf, hst] at hev
          rw [if_pos (by omega : (y - 1 : Int) ≠ pyv)] at hev
          rcases List.mem_append.mp hev with hA | hB
          · split at hA
            · rcases mem_mask_pair hA with rfl | rfl
              · exact Or.inl ⟨rfl, Or.inl rfl⟩
              · exact Or.inl ⟨rfl, Or.inr rfl⟩
            · simp at hA
          · rcases List.mem_append.mp hB with hBB | hrec
            · rcases mem_mask_pair hBB with rfl | rfl
              · exact Or.inr ⟨rfl, rfl, Or.inl rfl⟩
              · exact Or.inr ⟨rfl, rfl, Or.inr rfl⟩
            · exact ih _ _ _ _ _ _ _ rfl ev hrec
        · simp only [fchLoop, if_pos hxy, if_neg hf] at hev
          rw [if_neg (by omega : ¬ ((y : Int) ≠ pyv))] at hev
          rcases List.mem_append.mp hev with hA | hrec
          · split at hA
            · rcases mem_mask_pair hA with rfl | rfl
              · exact Or.inl ⟨rfl, Or.inl rfl⟩
              · exact Or.inl ⟨rfl, Or.inr rfl⟩
            · simp at hA
          · exact ih _ _ _ _ _ _ _ hpy ev hrec
      · simp only [fchLoop, if_neg hxy] at hev
        simp at hev

end GFX

namespace GFX

/-- C5 (amended): every vertical span emitted by `fillCircleHelper` falls
into one of two families.  A span from the `x < y + 1` family has height
`2*y + heightDelta + 1` for the `x`, `y` current at its emission and sits at
offset `+x` or `-x` from the center — but such spans are also emitted on
iterations that do **not** change `y`.  A span from the deduplication family
is emitted only on an iteration that changes `y`, and its height is
`2*px + heightDelta + 1` at offset `±py`, where `px`, `py` are the previous
trackers, not the current `x`, `y`. -/
theorem fillCircleHelper_span_shapes (x0 y0 r : Int) (corners : Nat)
    (delta c : Int) :
    ∀ ev ∈ fillCircleHelperTrace x0 y0 r corners delta c,
      (ev.sh = 2 * ev.y + delta + 1 ∧
        (ev.sx = x0 + ev.x ∨ ev.sx = x0 - ev.x)) ∨
      (ev.ystepped = true ∧ ev.sh = 2 * ev.px + delta + 1 ∧
        (ev.sx = x0 + ev.py ∨ ev.sx = x0 - ev.py)) := by
  intro ev hev
  have h := fchLoop_spans x0 y0 corners (delta + 1) c (r.toNat + 1)
    (1 - r) 1 (-2 * r) 0 r 0 r rfl ev hev
  rcases h with ⟨h1, h2⟩ | ⟨h1, h2, h3⟩
  · exact Or.inl ⟨by omega, h2⟩
  · exact Or.inr ⟨h1, by omega, h3⟩

/-- C5 counterexample: for the call `fillCircleHelper(0, 0, 5, corners = 1,
heightDelta = 0, c)`, the claim "every span has height `2*y + heightDelta +
1` at offset `±x` and is emitted only on a step that changes `y`" is false:
the very first emitted span arises on an iteration that does not change `y`. -/
theorem fillCircleHelper_span_claim_cex :
    ¬ (∀ ev ∈ fillCircleHelperTrace 0 0 5 1 0 7,
        ev.sh = 2 * ev.y + 0 + 1 ∧
        (ev.sx = 0 + ev.x ∨ ev.sx = 0 - ev.x) ∧
        ev.ystepped = true) := by decide

end GFX

namespace GFX

/-- The degenerate-triangle accumulator computes the min and max of the
three x coordinates. -/
lemma triDeg_minmax (x0 x1 x2 y0 c : Int) :
    triDeg x0 x1 x2 y0 c =
      drawFastHLine (min x0 (min x1 x2)) y0
        (max x0 (max x1 x2) - min x0 (min x1 x2) + 1) c := by
  simp only [triDeg]
  by_cases h1 : x1 < x0
  · rw [if_pos h1]
    dsimp only
    by_cases h2 : x2 < x1
    · rw [if_pos h2]
      dsimp only
      rw [show min x0 (min x1 x2) = x2 from by omega,
        show max x0 (max x1 x2) = x0 from by omega]
    · rw [if_neg h2]
      by_cases h3 : x2 > x0
      · rw [if_pos h3]
        dsimp only
        rw [show min x0 (min x1 x2) = x1 from by omega,
          show max x0 (max x1 x2) = x2 from by omega]
      · rw [if_neg h3]
        dsimp only
        rw [show min x0 (min x1 x2) = x1 from by omega,
          show max x0 (max x1 x2) = x0 from by omega]
  · rw [if_neg h1]
    by_cases h1b : x1 > x0
    · rw [if_pos h1b]
      dsimp only
      by_cases h2 : x2 < x0
      · rw [if_pos h2]
        dsimp only
        rw [show min x0 (min x1 x2) = x2 from by omega,
          show max x0 (max x1 x2) = x1 from by omega]
      · rw [if_neg h2]
        by_cases h3 : x2 > x1
        · rw [if_pos h3]
          dsimp only
          rw [show min x0 (min x1 x2) = x0 from by omega,
            show max x0 (max x1 x2) = x2 from by omega]
        · rw [if_neg h3]
          dsimp only
          rw [show min x0 (min x1 x2) = x0 from by omega,
            show max x0 (max x1 x2) = x1 from by omega]
    · rw [if_neg h1b]
      dsimp only
      by_cases h2 : x2 < x0
      · rw [if_pos h2]
        dsimp only
        rw [show min x0 (min x1 x2) = x2 from by omega,
          show max x0 (max x1 x2) = x0 from by omega]
      · rw [if_neg h2]
        by_cases h3 : x2 > x0
        · rw [if_pos h3]
          dsimp only
          rw [show min x0 (min x1 x2) = x0 from by omega,
            show max x0 (max x1 x2) = x2 from by omega]
        · rw [if_neg h3]
          dsimp only
          rw [show min x0 (min x1 x2) = x0 from by omega,
            show max x0 (max x1 x2) = x0 from by omega]

end GFX

namespace GFX

/-- C6: when all three vertex `y` coordinates are equal, `fillTriangle`
draws exactly one horizontal span, from the minimum to the maximum of the
three `x` coordinates, at that `y`; in particular on `(0,0)`, `(5,0)`,
`(10,0)` it draws the single eleven-pixel span `x = 0 .. 10` at `y = 0`. -/
theorem fillTriangle_collinear_single_span (x0 x1 x2 y color : Int) :
    fillTriangle x0 y x1 y x2 y color =
      drawFastHLine (min x0 (min x1 x2)) y
        (max x0 (max x1 x2) - min x0 (min x1 x2) + 1) color ∧
    fillTriangle 0 0 5 0 10 0 7 =
      [⟨0, 0, 7⟩, ⟨1, 0, 7⟩, ⟨2, 0, 7⟩, ⟨3, 0, 7⟩, ⟨4, 0, 7⟩, ⟨5, 0, 7⟩,
       ⟨6, 0, 7⟩, ⟨7, 0, 7⟩, ⟨8, 0, 7⟩, ⟨9, 0, 7⟩, ⟨10, 0, 7⟩] := by
  constructor
  · unfold fillTriangle fillTriangleB fillTriangleC
    rw [if_neg (lt_irrefl y), if_neg (lt_irrefl y), if_neg (lt_irrefl y)]
    unfold fillTrianglePost
    rw [if_pos rfl]
    exact triDeg_minmax x0 x1 x2 y color
  · decide

end GFX

namespace GFX

/-- Exchanging the two interpolated edges of a scanline loop (and their
accumulators) leaves the emitted spans unchanged, because each row sorts its
two endpoints before drawing. -/
lemma scanRows_comm (xa dya dxa xb dyb dxb c : Int) :
    ∀ (n : Nat) (y sa sb : Int),
      scanRows xa dya dxa xb dyb dxb c n y sa sb =
        scanRows xb dyb dxb xa dya dxa c n y sb sa := by
  intro n
  induction n with
  | zero => intro y sa sb; rfl
  | succ n ih =>
      intro y sa sb
      simp only [scanRows]
      by_cases h1 : xa + sa.tdiv dya > xb + sb.tdiv dyb
      · rw [if_pos h1, if_neg (by omega : ¬ xb + sb.tdiv dyb > xa + sa.tdiv dya)]
        dsimp only
        rw [ih (y + 1) (sa + dxa) (sb + dxb)]
      · by_cases h2 : xb + sb.tdiv dyb > xa + sa.tdiv dya
        · rw [if_neg h1, if_pos h2]
          dsimp only
          rw [ih (y + 1) (sa + dxa) (sb + dxb)]
        · have heq : xa + sa.tdiv dya = xb + sb.tdiv dyb := by omega
          rw [if_neg h1, if_neg h2]
          dsimp only
          rw [heq, ih (y + 1) (sa + dxa) (sb + dxb)]

/-- Exchanging the first two vertices of the sorted body is invisible when
they lie on the same scanline: the upper region is empty, both accumulators
seed to zero, and the lower region sees its two edges exchanged. -/
lemma post_swap01 (x0 y0 x1 y1 x2 y2 c : Int) (h : y0 = y1) :
    fillTrianglePost x0 y0 x1 y1 x2 y2 c =
      fillTrianglePost x1 y1 x0 y0 x2 y2 c := by
  subst h
  by_cases hdeg : y0 = y2
  · simp only [fillTrianglePost, if_pos hdeg]
    rw [triDeg_minmax, triDeg_minmax,
      show min x1 (min x0 x2) = min x0 (min x1 x2) from by omega,
      show max x1 (max x0 x2) = max x0 (max x1 x2) from by omega]
  · simp only [fillTrianglePost, if_neg hdeg]
    simp only [sub_add_cancel, sub_self, Int.toNat_zero, Nat.cast_zero,
      add_zero, mul_zero, scanRows, List.nil_append]
    exact scanRows_comm x1 (y2 - y0) (x2 - x1) x0 (y2 - y0) (x2 - x0) c _ y0 0 0

/-- Exchanging the last two vertices of the sorted body is invisible when
they lie on the same scanline (and the first vertex is not below them): the
upper region sees its two edges exchanged and the lower region is empty. -/
lemma post_swap12 (x0 y0 x1 y1 x2 y2 c : Int) (h1 : y1 = y2) (h2 : y0 ≤ y1) :
    fillTrianglePost x0 y0 x1 y1 x2 y2 c =
      fillTrianglePost x0 y0 x2 y2 x1 y1 c := by
  subst h1
  by_cases hdeg : y0 = y1
  · simp only [fillTrianglePost, if_pos hdeg]
    rw [triDeg_minmax, triDeg_minmax,
      show min x0 (min x2 x1) = min x0 (min x1 x2) from by omega,
      show max x0 (max x2 x1) = max x0 (max x1 x2) from by omega]
  · simp only [fillTrianglePost, if_neg hdeg, eq_self_iff_true, if_true]
    have hy : y0 + ((y1 + 1 - y0).toNat : Int) = y1 + 1 := by omega
    rw [hy]
    simp only [sub_self, show (y1 + 1 - (y1 + 1) : Int) = 0 from by ring,
      Int.toNat_zero, scanRows, List.append_nil]
    exact scanRows_comm x0 (y1 - y0) (x1 - x0) x0 (y1 - y0) (x2 - x0) c _ y0 0 0

end GFX

namespace GFX

set_option maxHeartbeats 1000000 in
/-- Exchanging the first two vertex arguments of `fillTriangle` leaves the
emitted pixel-write sequence unchanged: the first conditional exchange
canonicalizes their order, and a `y` tie is absorbed by the sorted body. -/
lemma fillTriangle_swap01 (x0 y0 x1 y1 x2 y2 c : Int) :
    fillTriangle x1 y1 x0 y0 x2 y2 c = fillTriangle x0 y0 x1 y1 x2 y2 c := by
  unfold fillTriangle fillTriangleB fillTriangleC
  split_ifs <;>
    first
      | rfl
      | omega
      | (apply post_swap01 <;> omega)
      | (apply post_swap12 <;> omega)

set_option maxHeartbeats 1000000 in
/-- Exchanging the last two vertex arguments of `fillTriangle` leaves the
emitted pixel-write sequence unchanged. -/
lemma fillTriangle_swap12 (x0 y0 x1 y1 x2 y2 c : Int) :
    fillTriangle x0 y0 x2 y2 x1 y1 c = fillTriangle x0 y0 x1 y1 x2 y2 c := by
  unfold fillTriangle fillTriangleB fillTriangleC
  split_ifs <;>
    first
      | rfl
      | omega
      | (apply post_swap01 <;> omega)
      | (apply post_swap12 <;> omega)

end GFX

namespace GFX

/-- C10: the pixel set drawn by `fillTriangle` is invariant under any
permutation of the order in which the three vertices are passed — the three
conditional pairwise swaps canonicalize the vertex order (ties are absorbed
by the sorted body) and the per-row endpoints are sorted before each span is
drawn.  The five non-identity orders even produce the identical pixel-write
sequence. -/
theorem fillTriangle_vertex_order_invariant (x0 y0 x1 y1 x2 y2 color : Int)
    (p : Px) :
    (p ∈ fillTriangle x1 y1 x0 y0 x2 y2 color ↔
      p ∈ fillTriangle x0 y0 x1 y1 x2 y2 color) ∧
    (p ∈ fillTriangle x0 y0 x2 y2 x1 y1 color ↔
      p ∈ fillTriangle x0 y0 x1 y1 x2 y2 color) ∧
    (p ∈ fillTriangle x2 y2 x1 y1 x0 y0 color ↔
      p ∈ fillTriangle x0 y0 x1 y1 x2 y2 color) ∧
    (p ∈ fillTriangle x1 y1 x2 y2 x0 y0 color ↔
      p ∈ fillTriangle x0 y0 x1 y1 x2 y2 color) ∧
    (p ∈ fillTriangle x2 y2 x0 y0 x1 y1 color ↔
      p ∈ fillTriangle x0 y0 x1 y1 x2 y2 color) := by
  have e120 : fillTriangle x1 y1 x2 y2 x0 y0 color =
      fillTriangle x0 y0 x1 y1 x2 y2 color := by
    rw [fillTriangle_swap12 x1 y1 x0 y0 x2 y2 color,
      fillTriangle_swap01 x0 y0 x1 y1 x2 y2 color]
  have e02 : fillTriangle x2 y2 x1 y1 x0 y0 color =
      fillTriangle x0 y0 x1 y1 x2 y2 color := by
    rw [fillTriangle_swap01 x1 y1 x2 y2 x0 y0 color, e120]
  have e201 : fillTriangle x2 y2 x0 y0 x1 y1 color =
      fillTriangle x0 y0 x1 y1 x2 y2 color := by
    rw [fillTriangle_swap01 x0 y0 x2 y2 x1 y1 color,
      fillTriangle_swap12 x0 y0 x1 y1 x2 y2 color]
  exact ⟨by rw [fillTriangle_swap01 x0 y0 x1 y1 x2 y2 color],
    by rw [fillTriangle_swap12 x0 y0 x1 y1 x2 y2 color],
    by rw [e02], by rw [e120], by rw [e201]⟩

end GFX

namespace GFX

/-- Witness for the amended C5: the first span traced by
`fillCircleHelper(0, 0, 5, corners = 1, heightDelta = 0, 7)` — height 11 at
offset `+1`, emitted on a step that did not change `y` — satisfies the
family-1 disjunct. -/
theorem fillCircleHelper_span_shapes_witness :
    SpanEv.mk 1 (-5) 11 1 5 0 5 false ∈ fillCircleHelperTrace 0 0 5 1 0 7 ∧
    (((SpanEv.mk 1 (-5) 11 1 5 0 5 false).sh =
        2 * (SpanEv.mk 1 (-5) 11 1 5 0 5 false).y + 0 + 1 ∧
      ((SpanEv.mk 1 (-5) 11 1 5 0 5 false).sx =
          0 + (SpanEv.mk 1 (-5) 11 1 5 0 5 false).x ∨
        (SpanEv.mk 1 (-5) 11 1 5 0 5 false).sx =
          0 - (SpanEv.mk 1 (-5) 11 1 5 0 5 false).x)) ∨
     ((SpanEv.mk 1 (-5) 11 1 5 0 5 false).ystepped = true ∧
      (SpanEv.mk 1 (-5) 11 1 5 0 5 false).sh =
        2 * (SpanEv.mk 1 (-5) 11 1 5 0 5 false).px + 0 + 1 ∧
      ((SpanEv.mk 1 (-5) 11 1 5 0 5 false).sx =
          0 + (SpanEv.mk 1 (-5) 11 1 5 0 5 false).py ∨
        (SpanEv.mk 1 (-5) 11 1 5 0 5 false).sx =
          0 - (SpanEv.mk 1 (-5) 11 1 5 0 5 false).py))) :=
  ⟨by decide,
   fillCircleHelper_span_shapes 0 0 5 1 0 7
     (SpanEv.mk 1 (-5) 11 1 5 0 5 false) (by decide)⟩

end GFX
